import Mathlib

/-
  Verification development for the grpc-mcp-gateway runtime.

  Shallow embedding of:
  - runtime/servemux.go   (MCPServeMux, ServeHTTP, dispatch, tools/list, tools/call)
  - runtime/convert.go    (DecodeArgs over a model of protojson unmarshalling)
  - internal/annotations/parse.go (protobuf wire walk for custom options)

  Modelling conventions:
  - JSON values are the inductive JValue; Go maps (map[string]interface{})
    are association lists with first-match lookup.
  - Byte buffers are List Nat (each entry a byte value).
  - Machine integers are Nat; the only overflow-sensitive spot is
    varint decoding, where the 10-byte/last-byte bound from
    protowire.ConsumeVarint keeps results below 2^64, as in Go.
  - Go (value, error) returns become Except/Option; a Go handler
    func(ctx, args) (any, error) becomes a pure function into Except,
    dropping the context (cancellation is not modelled).
  - The http.ResponseWriter effect is reified as HTTPOut: either
    "no content" (WriteHeader 204 and nothing written) or a status
    code together with the encoded JSON-RPC response value.
  - The request-logger hook is side-effect-only in the source and is
    dropped from the model.
-/

namespace GrpcMcpGateway

/-- JSON values, the model of Go interface{} values decoded from JSON. -/
inductive JValue where
  | jnull : JValue
  | jbool : Bool → JValue
  | jnum : Int → JValue
  | jstr : String → JValue
  | jarr : List JValue → JValue
  | jobj : List (String × JValue) → JValue

/-- First-match association-list lookup, the model of Go map indexing. -/
def lookupKey {α : Type} : List (String × α) → String → Option α
  | [], _ => none
  | (k, v) :: rest, key => if k = key then some v else lookupKey rest key

mutual
/-- Model of Go fmt.Sprintf with verb v on a decoded JSON value:
    strings print raw, booleans as true/false, numbers in decimal,
    nil as an angle-bracketed nil marker, slices space-separated in
    square brackets, and maps as map[k:v ...] (the model prints object
    fields in the association list's order). -/
def sprintfV : JValue → String
  | .jnull => "<nil>"
  | .jbool b => if b then "true" else "false"
  | .jnum n => toString n
  | .jstr s => s
  | .jarr xs => "[" ++ sprintfList xs ++ "]"
  | .jobj fs => "map[" ++ sprintfFields fs ++ "]"

def sprintfList : List JValue → String
  | [] => ""
  | [x] => sprintfV x
  | x :: y :: rest => sprintfV x ++ " " ++ sprintfList (y :: rest)

def sprintfFields : List (String × JValue) → String
  | [] => ""
  | [(k, v)] => k ++ ":" ++ sprintfV v
  | (k, v) :: p :: rest => k ++ ":" ++ sprintfV v ++ " " ++ sprintfFields (p :: rest)
end

/-- MCPError from servemux.go: code and message of a JSON-RPC error. -/
structure MCPError where
  code : Int
  message : String

/-- MCPResponse from servemux.go: a JSON-RPC response envelope.
    id is none when the Go interface{} field is nil. -/
structure MCPResponse where
  jsonrpc : String
  id : Option JValue
  result : Option JValue
  error : Option MCPError

/-- The effect of a handler on the http.ResponseWriter: either
    WriteHeader(204) with no body, or a status code with a JSON-RPC body. -/
inductive HTTPOut where
  | noContent : HTTPOut
  | response : Nat → MCPResponse → HTTPOut

/-- ServerMetadata from servemux.go. -/
structure ServerMetadata where
  Name : String
  Version : String

/-- ToolHandler from servemux.go. The Handler field models
    func(ctx, args map[string]any) (any, error). -/
structure ToolHandler where
  Name : String
  Title : String
  Description : String
  InputSchema : Option JValue
  ReadOnly : Bool
  Idempotent : Bool
  Destructive : Bool
  Handler : List (String × JValue) → Except String JValue

/-- MCPServeMux from servemux.go. The Go map[string]*ToolHandler is an
    association list keyed by tool name; the RWMutex guards only this
    map and is not modelled (each dispatch is a pure function of a
    registry snapshot). -/
structure MCPServeMux where
  tools : List (String × ToolHandler)
  metadata : ServerMetadata

/-- MCPRequest from servemux.go. id is none when the JSON id member is
    absent or null (both decode to a nil interface{} in Go); params is
    the empty list when the params member is absent (nil map). -/
structure MCPRequest where
  jsonrpc : String
  id : Option JValue
  method : String
  params : List (String × JValue)

/-- The status chosen by sendError in servemux.go: 400 for -32600 and
    -32601, 400 for -32700, 200 otherwise. -/
def statusForCode (code : Int) : Nat :=
  if code = -32600 ∨ code = -32601 then 400
  else if code = -32700 then 400
  else 200

/-- sendSuccess from servemux.go (an implicit 200 on first write). -/
def sendSuccess (id : Option JValue) (result : JValue) : HTTPOut :=
  HTTPOut.response 200 { jsonrpc := "2.0", id := id, result := some result, error := none }

/-- sendError from servemux.go. -/
def sendError (id : Option JValue) (code : Int) (message : String) : HTTPOut :=
  HTTPOut.response (statusForCode code)
    { jsonrpc := "2.0", id := id, result := none, error := some { code := code, message := message } }

/-- DefaultInputSchema from servemux.go. -/
def DefaultInputSchema : JValue :=
  .jobj [("type", .jstr "object"), ("properties", .jobj []), ("additionalProperties", .jbool true)]

/-- The annotations object built inside handleListTools: one hint key
    per true flag, in source order. -/
def toolHints (tool : ToolHandler) : List (String × JValue) :=
  (if tool.ReadOnly then [("readOnlyHint", JValue.jbool true)] else [])
  ++ (if tool.Idempotent then [("idempotentHint", JValue.jbool true)] else [])
  ++ (if tool.Destructive then [("destructiveHint", JValue.jbool true)] else [])

/-- One tools/list entry as built in the loop body of handleListTools:
    name and description always; title only when non-empty; inputSchema
    with the permissive default fallback; annotations only when at
    least one hint is set. -/
def toolEntry (tool : ToolHandler) : List (String × JValue) :=
  [("name", JValue.jstr tool.Name), ("description", JValue.jstr tool.Description)]
  ++ (if tool.Title ≠ "" then [("title", JValue.jstr tool.Title)] else [])
  ++ [("inputSchema", match tool.InputSchema with | some s => s | none => DefaultInputSchema)]
  ++ (if 0 < (toolHints tool).length then [("annotations", JValue.jobj (toolHints tool))] else [])

/-- handleListTools from servemux.go. -/
def handleListTools (mux : MCPServeMux) (id : Option JValue) : HTTPOut :=
  sendSuccess id (.jobj [("tools", .jarr (mux.tools.map (fun p => JValue.jobj (toolEntry p.2))))])

/-- The result object built by the initialize handler: the protocol
    version, server info taken from the mux metadata, and a capability
    advertisement declaring tool support. -/
def initResult (m : ServerMetadata) : JValue :=
  .jobj
    [("protocolVersion", .jstr "2025-11-25"),
     ("serverInfo", .jobj [("name", .jstr m.Name), ("version", .jstr m.Version)]),
     ("capabilities", .jobj [("tools", .jobj [])])]

/-- The initialize handler from servemux.go. -/
def handleInit (mux : MCPServeMux) (id : Option JValue) : HTTPOut :=
  sendSuccess id (initResult mux.metadata)

/-- The Go type assertion params into arguments as a map: a failed
    assertion (absent key or non-object value) yields the nil map. -/
def argumentsOf (params : List (String × JValue)) : List (String × JValue) :=
  match lookupKey params "arguments" with
  | some (.jobj m) => m
  | _ => []

/-- Registry lookup mux.tools with toolName as the key. -/
def findTool (tools : List (String × ToolHandler)) (toolName : String) : Option ToolHandler :=
  lookupKey tools toolName

/-- The success result object built in handleCallTool: a one-element
    content list with a text item formatted with the v verb, plus the
    raw output as structuredContent. -/
def callToolResult (output : JValue) : JValue :=
  .jobj [("content", .jarr [.jobj [("type", .jstr "text"), ("text", .jstr (sprintfV output))]]),
         ("structuredContent", output)]

/-- handleCallTool from servemux.go. -/
def handleCallTool (mux : MCPServeMux) (id : Option JValue) (params : List (String × JValue)) : HTTPOut :=
  match lookupKey params "name" with
  | some (.jstr toolName) =>
    let arguments := argumentsOf params
    match findTool mux.tools toolName with
    | none => sendError id (-32601) ("Tool not found: " ++ toolName)
    | some tool =>
      match tool.Handler arguments with
      | .error e => sendError id (-32000) e
      | .ok output => sendSuccess id (callToolResult output)
  | _ => sendError id (-32602) "Missing tool name"

/-- The method switch of ServeHTTP in servemux.go, after a successful
    body decode. -/
def dispatch (mux : MCPServeMux) (req : MCPRequest) : HTTPOut :=
  match req.method with
  | "initialize" => handleInit mux req.id
  | "notifications/initialized" => HTTPOut.noContent
  | "tools/list" => handleListTools mux req.id
  | "tools/call" => handleCallTool mux req.id req.params
  | _ =>
    match req.id with
    | some _ => sendError req.id (-32601) ("Method not found: " ++ req.method)
    | none => HTTPOut.noContent

/-- ServeHTTP from servemux.go. The body argument is the outcome of
    json Decode on the request body: error carries the decode error
    text. The request-logger call is side-effect-only and dropped. -/
def ServeHTTP (mux : MCPServeMux) (httpMethod : String) (body : Except String MCPRequest) : HTTPOut :=
  if httpMethod = "OPTIONS" then HTTPOut.noContent
  else if httpMethod ≠ "POST" then sendError none (-32600) "Invalid request method"
  else
    match body with
    | .error e => sendError none (-32700) ("Parse error: " ++ e)
    | .ok req => dispatch mux req

/-
  internal/annotations/parse.go: protobuf wire-format walk over raw
  option bytes, using google.golang.org/protobuf/encoding/protowire.
  The protowire consume functions are modelled below from their
  documented behaviour (negative lengths become none). Go bounded
  loops over a shrinking byte slice are modelled as fuel recursion,
  with fuel initialized to the buffer length: every iteration consumes
  at least one byte, so the fuel never runs out on the lengths the
  top-level entry points pass.
-/

/-- protowire wire types. -/
def wtVarint : Nat := 0
def wtFixed64 : Nat := 1
def wtBytes : Nat := 2
def wtStartGroup : Nat := 3
def wtEndGroup : Nat := 4
def wtFixed32 : Nat := 5

/-- protowire.Number constants from parse.go. -/
def methodOptionFieldNumber : Nat := 51234
def serviceOptionFieldNumber : Nat := 51235

/-- Model of protowire.ConsumeVarint: little-endian base-128 groups,
    at most ten bytes, the tenth byte at most 1 (so values stay below
    2^64 as in Go); returns the value and the byte count, or none on
    truncation or overflow (the negative n of protowire). The fuel is
    the remaining byte allowance, starting at 10. -/
def consumeVarintAux : Nat → List Nat → Option (Nat × Nat)
  | _, [] => none
  | 0, _ :: _ => none
  | fuel + 1, b :: rest =>
    if b < 128 then
      if fuel = 0 ∧ 2 ≤ b then none else some (b, 1)
    else
      match consumeVarintAux fuel rest with
      | none => none
      | some (v, n) => some (b % 128 + v <<< 7, n + 1)

def consumeVarint (bs : List Nat) : Option (Nat × Nat) :=
  consumeVarintAux 10 bs

/-- Model of protowire.ConsumeTag: a varint split into field number
    (upper bits, truncated to int32 as in DecodeTag, invalid when zero
    or negative) and wire type (low three bits). Returns
    (number, type, consumed). -/
def consumeTag (bs : List Nat) : Option (Nat × Nat × Nat) :=
  match consumeVarint bs with
  | none => none
  | some (v, n) =>
    let num := (v >>> 3) % 2 ^ 32
    if num = 0 ∨ 2 ^ 31 ≤ num then none else some (num, v % 8, n)

/-- Model of protowire.ConsumeFixed32: needs four bytes; only the
    consumed count is used by parse.go, so the value is not returned. -/
def consumeFixed32 (bs : List Nat) : Option Nat :=
  if 4 ≤ bs.length then some 4 else none

/-- Model of protowire.ConsumeFixed64: needs eight bytes. -/
def consumeFixed64 (bs : List Nat) : Option Nat :=
  if 8 ≤ bs.length then some 8 else none

/-- Model of protowire.ConsumeBytes: a varint length followed by that
    many bytes; returns the payload and the total consumed count. -/
def consumeBytes (bs : List Nat) : Option (List Nat × Nat) :=
  match consumeVarint bs with
  | none => none
  | some (v, n) =>
    if bs.length - n < v then none else some (((bs.drop n).take v, n + v))

/-- consumeField from parse.go: generic skip of one field payload of
    the given wire type; none models the error return (group types are
    always errors there). -/
def consumeField (typ : Nat) (bs : List Nat) : Option Nat :=
  if typ = wtVarint then (consumeVarint bs).map (fun p => p.2)
  else if typ = wtFixed32 then consumeFixed32 bs
  else if typ = wtFixed64 then consumeFixed64 bs
  else if typ = wtBytes then (consumeBytes bs).map (fun p => p.2)
  else none

/-- findExtension from parse.go, as a fuel loop: walk tagged fields,
    returning the first length-delimited payload at the target field
    number, and none on any malformed consumption or when the buffer
    runs out. -/
def findExtensionF (fuel : Nat) (unknown : List Nat) (fieldNumber : Nat) : Option (List Nat) :=
  match unknown with
  | [] => none
  | _ :: _ =>
    match fuel with
    | 0 => none
    | fuel' + 1 =>
      match consumeTag unknown with
      | none => none
      | some (num, typ, n) =>
        let rest := unknown.drop n
        if typ = wtVarint then
          match consumeVarint rest with
          | none => none
          | some (_, m) => findExtensionF fuel' (rest.drop m) fieldNumber
        else if typ = wtFixed32 then
          match consumeFixed32 rest with
          | none => none
          | some m => findExtensionF fuel' (rest.drop m) fieldNumber
        else if typ = wtFixed64 then
          match consumeFixed64 rest with
          | none => none
          | some m => findExtensionF fuel' (rest.drop m) fieldNumber
        else if typ = wtBytes then
          match consumeBytes rest with
          | none => none
          | some (b, m) =>
            if num = fieldNumber then some b else findExtensionF fuel' (rest.drop m) fieldNumber
        else none

def findExtension (unknown : List Nat) (fieldNumber : Nat) : Option (List Nat) :=
  findExtensionF unknown.length unknown fieldNumber

/-- ToolOptions from parse.go; string fields keep their raw bytes
    (Go string conversion of a byte slice is byte-preserving). -/
structure ToolOptions where
  Name : List Nat
  Title : List Nat
  Description : List Nat
  ReadOnly : Bool
  Idempotent : Bool
  Destructive : Bool
deriving DecidableEq

/-- ServiceOptions from parse.go. -/
structure ServiceOptions where
  Name : List Nat
  Version : List Nat
deriving DecidableEq

def zeroTool : ToolOptions := ⟨[], [], [], false, false, false⟩
def zeroService : ServiceOptions := ⟨[], []⟩

/-- parseServiceOptions from parse.go, as a fuel loop with the
    accumulated out record: numbers 1 and 2 must be length-delimited
    strings (any other wire type aborts with the zero record and
    false), unknown numbers are skipped generically, and any malformed
    consumption aborts with the zero record and false. -/
def parseServiceOptionsF (fuel : Nat) (out : ServiceOptions) (raw : List Nat) : ServiceOptions × Bool :=
  match raw with
  | [] => (out, true)
  | _ :: _ =>
    match fuel with
    | 0 => (zeroService, false)
    | fuel' + 1 =>
      match consumeTag raw with
      | none => (zeroService, false)
      | some (num, typ, n) =>
        let rest := raw.drop n
        if num = 1 then
          if typ = wtBytes then
            match consumeBytes rest with
            | none => (zeroService, false)
            | some (b, m) => parseServiceOptionsF fuel' { out with Name := b } (rest.drop m)
          else (zeroService, false)
        else if num = 2 then
          if typ = wtBytes then
            match consumeBytes rest with
            | none => (zeroService, false)
            | some (b, m) => parseServiceOptionsF fuel' { out with Version := b } (rest.drop m)
          else (zeroService, false)
        else
          match consumeField typ rest with
          | none => (zeroService, false)
          | some m => parseServiceOptionsF fuel' out (rest.drop m)

def parseServiceOptions (raw : List Nat) : ServiceOptions × Bool :=
  parseServiceOptionsF raw.length zeroService raw

/-- parseToolOptions from parse.go: numbers 1-3 are length-delimited
    strings (name, title, description), 4-6 boolean varints, unknown
    numbers skipped generically; any abort (wrong wire type for a
    known number, or malformed consumption) returns the fields
    accumulated so far. -/
def parseToolOptionsF (fuel : Nat) (out : ToolOptions) (raw : List Nat) : ToolOptions :=
  match raw with
  | [] => out
  | _ :: _ =>
    match fuel with
    | 0 => out
    | fuel' + 1 =>
      match consumeTag raw with
      | none => out
      | some (num, typ, n) =>
        let rest := raw.drop n
        if num = 1 then
          if typ = wtBytes then
            match consumeBytes rest with
            | none => out
            | some (b, m) => parseToolOptionsF fuel' { out with Name := b } (rest.drop m)
          else out
        else if num = 2 then
          if typ = wtBytes then
            match consumeBytes rest with
            | none => out
            | some (b, m) => parseToolOptionsF fuel' { out with Title := b } (rest.drop m)
          else out
        else if num = 3 then
          if typ = wtBytes then
            match consumeBytes rest with
            | none => out
            | some (b, m) => parseToolOptionsF fuel' { out with Description := b } (rest.drop m)
          else out
        else if num = 4 then
          if typ = wtVarint then
            match consumeVarint rest with
            | none => out
            | some (v, m) => parseToolOptionsF fuel' { out with ReadOnly := v != 0 } (rest.drop m)
          else out
        else if num = 5 then
          if typ = wtVarint then
            match consumeVarint rest with
            | none => out
            | some (v, m) => parseToolOptionsF fuel' { out with Idempotent := v != 0 } (rest.drop m)
          else out
        else if num = 6 then
          if typ = wtVarint then
            match consumeVarint rest with
            | none => out
            | some (v, m) => parseToolOptionsF fuel' { out with Destructive := v != 0 } (rest.drop m)
          else out
        else
          match consumeField typ rest with
          | none => out
          | some m => parseToolOptionsF fuel' out (rest.drop m)

def parseToolOptions (raw : List Nat) : ToolOptions :=
  parseToolOptionsF raw.length zeroTool raw

/-- parseMethodOptions from parse.go: scan the method-option bytes for
    field number 1 with the length-delimited wire type; skip other
    fields generically; any malformed consumption before the field is
    found, or exhausting the buffer without finding it, yields the
    zero record and false; once found, the payload is handed to
    parseToolOptions and found becomes true. -/
def parseMethodOptionsF (fuel : Nat) (raw : List Nat) : ToolOptions × Bool :=
  match raw with
  | [] => (zeroTool, false)
  | _ :: _ =>
    match fuel with
    | 0 => (zeroTool, false)
    | fuel' + 1 =>
      match consumeTag raw with
      | none => (zeroTool, false)
      | some (num, typ, n) =>
        let rest := raw.drop n
        if num ≠ 1 ∨ typ ≠ wtBytes then
          match consumeField typ rest with
          | none => (zeroTool, false)
          | some m => parseMethodOptionsF fuel' (rest.drop m)
        else
          match consumeBytes rest with
          | none => (zeroTool, false)
          | some (b, _) => (parseToolOptions b, true)

def parseMethodOptions (raw : List Nat) : ToolOptions × Bool :=
  parseMethodOptionsF raw.length raw

/-- The buffer contains a length-delimited field at the target field
    number, reachable by the wire-format walk: either the buffer opens
    with such a field, or it opens with some other generically
    consumable field after which the remainder contains one. This is
    the declarative reading of what findExtension searches for. -/
inductive HasTargetField (fieldNumber : Nat) : List Nat → Prop where
  | here {bs n b m num typ} :
      consumeTag bs = some (num, typ, n) →
      num = fieldNumber → typ = wtBytes →
      consumeBytes (bs.drop n) = some (b, m) →
      HasTargetField fieldNumber bs
  | skip {bs num typ n m} :
      consumeTag bs = some (num, typ, n) →
      ¬(num = fieldNumber ∧ typ = wtBytes) →
      consumeField typ (bs.drop n) = some m →
      HasTargetField fieldNumber ((bs.drop n).drop m) →
      HasTargetField fieldNumber bs

/-
  runtime/convert.go: DecodeArgs. The protojson library is external;
  its unmarshalling over a flat message shape is modelled from its
  documented contract: walking the JSON object keys, a key that
  matches no declared field is an error unless DiscardUnknown is set
  (in which case it is skipped), and a matching key whose value cannot
  be coerced to the field's declared kind is an error. The shape is a
  flat list of declared field names with kinds; the decoded message
  value itself is not needed by the claims, so the model returns only
  success or the error. json.Marshal of a map of decoded JSON values
  cannot fail and is dropped.
-/

/-- Declared field kinds for the DecodeArgs model. -/
inductive FieldKind where
  | kString : FieldKind
  | kBool : FieldKind
  | kInt : FieldKind
deriving DecidableEq

/-- Whether a JSON value can be coerced to a declared kind under
    protojson rules (string fields take JSON strings, bool fields JSON
    booleans, integer fields JSON numbers or decimal strings). -/
def coercible : FieldKind → JValue → Bool
  | .kString, .jstr _ => true
  | .kBool, .jbool _ => true
  | .kInt, .jnum _ => true
  | .kInt, .jstr s => s.toInt?.isSome
  | _, _ => false

/-- Model of protojson UnmarshalOptions applied to a JSON object and
    a flat message shape. -/
def protojsonUnmarshalFields (discardUnknown : Bool) (shape : List (String × FieldKind)) :
    List (String × JValue) → Except String Unit
  | [] => .ok ()
  | (k, v) :: rest =>
    match lookupKey shape k with
    | none =>
      if discardUnknown then protojsonUnmarshalFields discardUnknown shape rest
      else .error ("unknown field " ++ k)
    | some kind =>
      if coercible kind v then protojsonUnmarshalFields discardUnknown shape rest
      else .error ("invalid value for field " ++ k)

/-- DecodeArgs from convert.go: a nil message returns nil; a nil args
    map becomes the empty map; the marshalled arguments are
    unmarshalled with DiscardUnknown set to false. -/
def DecodeArgs (args : Option (List (String × JValue))) (msg : Option (List (String × FieldKind))) :
    Except String Unit :=
  match msg with
  | none => .ok ()
  | some shape =>
    let argsVal := match args with | none => ([] : List (String × JValue)) | some a => a
    protojsonUnmarshalFields false shape argsVal

/- Concrete fixtures used by counterexamples and witnesses. -/

/-- An empty registry with fixed server metadata. -/
def mux0 : MCPServeMux := { tools := [], metadata := { Name := "srv", Version := "1.0" } }

/-- A tool whose invoker always succeeds with a fixed string. -/
def tool1 : ToolHandler :=
  { Name := "greet", Title := "", Description := "greets",
    InputSchema := none, ReadOnly := true, Idempotent := false, Destructive := false,
    Handler := fun _ => .ok (.jstr "hi") }

/-- A one-tool registry holding tool1. -/
def mux1 : MCPServeMux :=
  { tools := [("greet", tool1)], metadata := { Name := "srv", Version := "1.0" } }

/- Helper lemmas about the wire-format consumers. -/

theorem consumeVarintAux_pos (fuel : Nat) (bs : List Nat) (v n : Nat)
    (h : consumeVarintAux fuel bs = some (v, n)) : 1 ≤ n := by
  cases bs with
  | nil => simp [consumeVarintAux] at h
  | cons b rest =>
    cases fuel with
    | zero => simp [consumeVarintAux] at h
    | succ fuel' =>
      simp only [consumeVarintAux] at h
      split at h
      · split at h
        · exact absurd h (by simp)
        · simp at h
          omega
      · cases hrec : consumeVarintAux fuel' rest with
        | none => rw [hrec] at h; simp at h
        | some p =>
          rw [hrec] at h
          simp at h
          omega

theorem consumeVarint_pos (bs : List Nat) (v n : Nat)
    (h : consumeVarint bs = some (v, n)) : 1 ≤ n :=
  consumeVarintAux_pos 10 bs v n h

theorem consumeTag_pos (bs : List Nat) (num typ n : Nat)
    (h : consumeTag bs = some (num, typ, n)) : 1 ≤ n := by
  unfold consumeTag at h
  cases hv : consumeVarint bs with
  | none => rw [hv] at h; simp at h
  | some p =>
    obtain ⟨v, n'⟩ := p
    rw [hv] at h
    simp only [] at h
    split at h
    · exact absurd h (by simp)
    · simp at h
      obtain ⟨-, -, hn⟩ := h
      subst hn
      exact consumeVarint_pos bs v n' hv

theorem consumeTag_ne_nil (bs : List Nat) (x : Nat × Nat × Nat)
    (h : consumeTag bs = some x) : bs ≠ [] := by
  intro hnil
  subst hnil
  rw [show consumeTag [] = none from rfl] at h
  exact Option.noConfusion h

/-- Any fuel at least the buffer length gives the same findExtensionF
    result: every loop iteration consumes at least one byte. -/
theorem findExtensionF_fuel (f1 : Nat) : ∀ (f2 : Nat) (bs : List Nat) (fn : Nat),
    bs.length ≤ f1 → bs.length ≤ f2 →
    findExtensionF f1 bs fn = findExtensionF f2 bs fn := by
  induction f1 with
  | zero =>
    intro f2 bs fn h1 _
    have : bs = [] := List.length_eq_zero.mp (Nat.le_zero.mp h1)
    subst this
    cases f2 <;> rfl
  | succ f1' ih =>
    intro f2 bs fn h1 h2
    cases bs with
    | nil => cases f2 <;> rfl
    | cons b tl =>
      cases f2 with
      | zero => simp at h2
      | succ f2' =>
        simp only [findExtensionF]
        cases ht : consumeTag (b :: tl) with
        | none => rfl
        | some t =>
          obtain ⟨num, typ, n⟩ := t
          have hn : 1 ≤ n := consumeTag_pos _ _ _ _ ht
          have hlen1 : tl.length ≤ f1' := by simpa using h1
          have hlen2 : tl.length ≤ f2' := by simpa using h2
          simp only []
          split
          · cases hcv : consumeVarint ((b :: tl).drop n) with
            | none => rfl
            | some p =>
              obtain ⟨v, m⟩ := p
              exact ih f2' _ fn (by simp [List.length_drop]; omega) (by simp [List.length_drop]; omega)
          · split
            · cases hcv : consumeFixed32 ((b :: tl).drop n) with
              | none => rfl
              | some m =>
                exact ih f2' _ fn (by simp [List.length_drop]; omega) (by simp [List.length_drop]; omega)
            · split
              · cases hcv : consumeFixed64 ((b :: tl).drop n) with
                | none => rfl
                | some m =>
                  exact ih f2' _ fn (by simp [List.length_drop]; omega) (by simp [List.length_drop]; omega)
              · split
                · cases hcv : consumeBytes ((b :: tl).drop n) with
                  | none => rfl
                  | some p =>
                    obtain ⟨bb, m⟩ := p
                    dsimp only
                    split
                    · rfl
                    · exact ih f2' _ fn (by simp [List.length_drop]; omega) (by simp [List.length_drop]; omega)
                · rfl

/-- Any fuel at least the buffer length gives the same
    parseServiceOptionsF result. -/
theorem parseServiceOptionsF_fuel (f1 : Nat) : ∀ (f2 : Nat) (out : ServiceOptions) (raw : List Nat),
    raw.length ≤ f1 → raw.length ≤ f2 →
    parseServiceOptionsF f1 out raw = parseServiceOptionsF f2 out raw := by
  induction f1 with
  | zero =>
    intro f2 out raw h1 _
    have : raw = [] := List.length_eq_zero.mp (Nat.le_zero.mp h1)
    subst this
    cases f2 <;> rfl
  | succ f1' ih =>
    intro f2 out raw h1 h2
    cases raw with
    | nil => cases f2 <;> rfl
    | cons b tl =>
      cases f2 with
      | zero => simp at h2
      | succ f2' =>
        simp only [parseServiceOptionsF]
        cases ht : consumeTag (b :: tl) with
        | none => rfl
        | some t =>
          obtain ⟨num, typ, n⟩ := t
          have hn : 1 ≤ n := consumeTag_pos _ _ _ _ ht
          have hl1 : tl.length ≤ f1' := by simpa using h1
          have hl2 : tl.length ≤ f2' := by simpa using h2
          dsimp only
          split
          · split
            · cases hcb : consumeBytes ((b :: tl).drop n) with
              | none => rfl
              | some p =>
                obtain ⟨bb, m⟩ := p
                exact ih f2' _ _ (by simp [List.length_drop]; omega) (by simp [List.length_drop]; omega)
            · rfl
          · split
            · split
              · cases hcb : consumeBytes ((b :: tl).drop n) with
                | none => rfl
                | some p =>
                  obtain ⟨bb, m⟩ := p
                  exact ih f2' _ _ (by simp [List.length_drop]; omega) (by simp [List.length_drop]; omega)
              · rfl
            · cases hcf : consumeField typ ((b :: tl).drop n) with
              | none => rfl
              | some m =>
                exact ih f2' _ _ (by simp [List.length_drop]; omega) (by simp [List.length_drop]; omega)

/-- Any fuel at least the buffer length gives the same
    parseToolOptionsF result. -/
theorem parseToolOptionsF_fuel (f1 : Nat) : ∀ (f2 : Nat) (out : ToolOptions) (raw : List Nat),
    raw.length ≤ f1 → raw.length ≤ f2 →
    parseToolOptionsF f1 out raw = parseToolOptionsF f2 out raw := by
  induction f1 with
  | zero =>
    intro f2 out raw h1 _
    have : raw = [] := List.length_eq_zero.mp (Nat.le_zero.mp h1)
    subst this
    cases f2 <;> rfl
  | succ f1' ih =>
    intro f2 out raw h1 h2
    cases raw with
    | nil => cases f2 <;> rfl
    | cons b tl =>
      cases f2 with
      | zero => simp at h2
      | succ f2' =>
        simp only [parseToolOptionsF]
        cases ht : consumeTag (b :: tl) with
        | none => rfl
        | some t =>
          obtain ⟨num, typ, n⟩ := t
          have hn : 1 ≤ n := consumeTag_pos _ _ _ _ ht
          have hl1 : tl.length ≤ f1' := by simpa using h1
          have hl2 : tl.length ≤ f2' := by simpa using h2
          dsimp only
          split
          · split
            · cases hcb : consumeBytes ((b :: tl).drop n) with
              | none => rfl
              | some p =>
                obtain ⟨bb, m⟩ := p
                exact ih f2' _ _ (by simp [List.length_drop]; omega) (by simp [List.length_drop]; omega)
            · rfl
          · split
            · split
              · cases hcb : consumeBytes ((b :: tl).drop n) with
                | none => rfl
                | some p =>
                  obtain ⟨bb, m⟩ := p
                  exact ih f2' _ _ (by simp [List.length_drop]; omega) (by simp [List.length_drop]; omega)
              · rfl
            · split
              · split
                · cases hcb : consumeBytes ((b :: tl).drop n) with
                  | none => rfl
                  | some p =>
                    obtain ⟨bb, m⟩ := p
                    exact ih f2' _ _ (by simp [List.length_drop]; omega) (by simp [List.length_drop]; omega)
                · rfl
              · split
                · split
                  · cases hcv : consumeVarint ((b :: tl).drop n) with
                    | none => rfl
                    | some p =>
                      obtain ⟨v, m⟩ := p
                      exact ih f2' _ _ (by simp [List.length_drop]; omega) (by simp [List.length_drop]; omega)
                  · rfl
                · split
                  · split
                    · cases hcv : consumeVarint ((b :: tl).drop n) with
                      | none => rfl
                      | some p =>
                        obtain ⟨v, m⟩ := p
                        exact ih f2' _ _ (by simp [List.length_drop]; omega) (by simp [List.length_drop]; omega)
                    · rfl
                  · split
                    · split
                      · cases hcv : consumeVarint ((b :: tl).drop n) with
                        | none => rfl
                        | some p =>
                          obtain ⟨v, m⟩ := p
                          exact ih f2' _ _ (by simp [List.length_drop]; omega) (by simp [List.length_drop]; omega)
                      · rfl
                    · cases hcf : consumeField typ ((b :: tl).drop n) with
                      | none => rfl
                      | some m =>
                        exact ih f2' _ _ (by simp [List.length_drop]; omega) (by simp [List.length_drop]; omega)

/-- One findExtensionF iteration over a leading field that is not the
    target length-delimited field consumes it generically and
    continues on the remainder. -/
theorem findExtensionF_succ_skip (fuel : Nat) (bs : List Nat) (fn num typ n m : Nat)
    (ht : consumeTag bs = some (num, typ, n))
    (hne : ¬(num = fn ∧ typ = wtBytes))
    (hcf : consumeField typ (bs.drop n) = some m) :
    findExtensionF (fuel + 1) bs fn = findExtensionF fuel ((bs.drop n).drop m) fn := by
  cases bs with
  | nil => exact absurd rfl (consumeTag_ne_nil _ _ ht)
  | cons b tl =>
    unfold consumeField at hcf
    split_ifs at hcf with h0 h5 h1 h2
    · cases hcv : consumeVarint ((b :: tl).drop n) with
      | none => rw [hcv] at hcf; simp at hcf
      | some p =>
        obtain ⟨v, m'⟩ := p
        rw [hcv] at hcf
        simp at hcf
        subst hcf
        simp [findExtensionF, ht, h0, hcv, wtVarint, wtFixed32, wtFixed64, wtBytes]
    · simp [findExtensionF, ht, h5, hcf, wtVarint, wtFixed32, wtFixed64, wtBytes]
    · simp [findExtensionF, ht, h1, hcf, wtVarint, wtFixed32, wtFixed64, wtBytes]
    · cases hcb : consumeBytes ((b :: tl).drop n) with
      | none => rw [hcb] at hcf; simp at hcf
      | some p =>
        obtain ⟨bb, m'⟩ := p
        rw [hcb] at hcf
        simp at hcf
        subst hcf
        have hnum : ¬(num = fn) := fun hh => hne ⟨hh, h2⟩
        simp [findExtensionF, ht, h2, hcb, hnum, wtVarint, wtFixed32, wtFixed64, wtBytes]

/-- One parseServiceOptionsF iteration over a leading field with an
    unrecognized number consumes it generically and continues. -/
theorem parseServiceOptionsF_succ_skip (fuel : Nat) (out : ServiceOptions) (raw : List Nat)
    (num typ n m : Nat)
    (ht : consumeTag raw = some (num, typ, n))
    (hn1 : num ≠ 1) (hn2 : num ≠ 2)
    (hcf : consumeField typ (raw.drop n) = some m) :
    parseServiceOptionsF (fuel + 1) out raw = parseServiceOptionsF fuel out ((raw.drop n).drop m) := by
  cases raw with
  | nil => exact absurd rfl (consumeTag_ne_nil _ _ ht)
  | cons b tl => simp [parseServiceOptionsF, ht, hn1, hn2, hcf]

/-- One parseToolOptionsF iteration over a leading field with an
    unrecognized number consumes it generically and continues. -/
theorem parseToolOptionsF_succ_skip (fuel : Nat) (out : ToolOptions) (raw : List Nat)
    (num typ n m : Nat)
    (ht : consumeTag raw = some (num, typ, n))
    (hn1 : num ≠ 1) (hn2 : num ≠ 2) (hn3 : num ≠ 3)
    (hn4 : num ≠ 4) (hn5 : num ≠ 5) (hn6 : num ≠ 6)
    (hcf : consumeField typ (raw.drop n) = some m) :
    parseToolOptionsF (fuel + 1) out raw = parseToolOptionsF fuel out ((raw.drop n).drop m) := by
  cases raw with
  | nil => exact absurd rfl (consumeTag_ne_nil _ _ ht)
  | cons b tl => simp [parseToolOptionsF, ht, hn1, hn2, hn3, hn4, hn5, hn6, hcf]

/-- Every parseServiceOptionsF outcome either reports found, or is
    exactly the zero record with false: aborts never leak partially
    accumulated fields. -/
theorem parseServiceOptionsF_false_zero (fuel : Nat) : ∀ (out : ServiceOptions) (raw : List Nat),
    (parseServiceOptionsF fuel out raw).2 = true ∨
    parseServiceOptionsF fuel out raw = (zeroService, false) := by
  induction fuel with
  | zero =>
    intro out raw
    cases raw with
    | nil => exact Or.inl rfl
    | cons b tl => exact Or.inr rfl
  | succ fuel' ih =>
    intro out raw
    cases raw with
    | nil => exact Or.inl rfl
    | cons b tl =>
      simp only [parseServiceOptionsF]
      cases ht : consumeTag (b :: tl) with
      | none => exact Or.inr rfl
      | some t =>
        obtain ⟨num, typ, n⟩ := t
        dsimp only
        split
        · split
          · cases hcb : consumeBytes ((b :: tl).drop n) with
            | none => exact Or.inr rfl
            | some p => obtain ⟨bb, m⟩ := p; exact ih _ _
          · exact Or.inr rfl
        · split
          · split
            · cases hcb : consumeBytes ((b :: tl).drop n) with
              | none => exact Or.inr rfl
              | some p => obtain ⟨bb, m⟩ := p; exact ih _ _
            · exact Or.inr rfl
          · cases hcf : consumeField typ ((b :: tl).drop n) with
            | none => exact Or.inr rfl
            | some m => exact ih _ _

/-- Every parseMethodOptionsF outcome either reports found, or is
    exactly the zero record with false. -/
theorem parseMethodOptionsF_false_zero (fuel : Nat) : ∀ (raw : List Nat),
    (parseMethodOptionsF fuel raw).2 = true ∨
    parseMethodOptionsF fuel raw = (zeroTool, false) := by
  induction fuel with
  | zero =>
    intro raw
    cases raw with
    | nil => exact Or.inr rfl
    | cons b tl => exact Or.inr rfl
  | succ fuel' ih =>
    intro raw
    cases raw with
    | nil => exact Or.inr rfl
    | cons b tl =>
      simp only [parseMethodOptionsF]
      cases ht : consumeTag (b :: tl) with
      | none => exact Or.inr rfl
      | some t =>
        obtain ⟨num, typ, n⟩ := t
        dsimp only
        split
        · cases hcf : consumeField typ ((b :: tl).drop n) with
          | none => exact Or.inr rfl
          | some m => exact ih _
        · cases hcb : consumeBytes ((b :: tl).drop n) with
          | none => exact Or.inr rfl
          | some p => exact Or.inl rfl

/-- With sufficient fuel, a walk over a buffer in which no
    length-delimited target field is reachable returns none. -/
theorem findExtensionF_none_of_not_has (fn : Nat) (fuel : Nat) : ∀ (bs : List Nat),
    bs.length ≤ fuel → ¬ HasTargetField fn bs → findExtensionF fuel bs fn = none := by
  induction fuel with
  | zero =>
    intro bs h1 _
    have : bs = [] := List.length_eq_zero.mp (Nat.le_zero.mp h1)
    subst this
    rfl
  | succ fuel' ih =>
    intro bs hlen hnot
    cases bs with
    | nil => rfl
    | cons b tl =>
      simp only [findExtensionF]
      cases ht : consumeTag (b :: tl) with
      | none => rfl
      | some t =>
        obtain ⟨num, typ, n⟩ := t
        have hn : 1 ≤ n := consumeTag_pos _ _ _ _ ht
        have hl : tl.length ≤ fuel' := by simpa using hlen
        dsimp only
        split
        · next h0 =>
          cases hcv : consumeVarint ((b :: tl).drop n) with
          | none => rfl
          | some p =>
            obtain ⟨v, m⟩ := p
            apply ih
            · simp [List.length_drop]; omega
            · intro hrest
              refine hnot (HasTargetField.skip ht ?_ ?_ hrest)
              · simp [h0, wtVarint, wtBytes]
              · simp [consumeField, h0, hcv, wtVarint, wtFixed32, wtFixed64, wtBytes]
        · next h0 =>
          split
          · next h5 =>
            cases hc32 : consumeFixed32 ((b :: tl).drop n) with
            | none => rfl
            | some m =>
              apply ih
              · simp [List.length_drop]; omega
              · intro hrest
                refine hnot (HasTargetField.skip ht ?_ ?_ hrest)
                · simp [h5, wtFixed32, wtBytes]
                · simp [consumeField, h5, hc32, wtVarint, wtFixed32, wtFixed64, wtBytes]
          · next h5 =>
            split
            · next h1 =>
              cases hc64 : consumeFixed64 ((b :: tl).drop n) with
              | none => rfl
              | some m =>
                apply ih
                · simp [List.length_drop]; omega
                · intro hrest
                  refine hnot (HasTargetField.skip ht ?_ ?_ hrest)
                  · simp [h1, wtFixed64, wtBytes]
                  · simp [consumeField, h1, hc64, wtVarint, wtFixed32, wtFixed64, wtBytes]
            · next h1 =>
              split
              · next h2 =>
                cases hcb : consumeBytes ((b :: tl).drop n) with
                | none => rfl
                | some p =>
                  obtain ⟨bb, m⟩ := p
                  dsimp only
                  split
                  · next hfn =>
                    exact absurd (HasTargetField.here ht hfn h2 hcb) hnot
                  · next hfn =>
                    apply ih
                    · simp [List.length_drop]; omega
                    · intro hrest
                      refine hnot (HasTargetField.skip ht ?_ ?_ hrest)
                      · exact fun hc => hfn hc.1
                      · simp [consumeField, h2, hcb, wtVarint, wtFixed32, wtFixed64, wtBytes]
              · rfl

/- Helper lemmas about the dispatcher. -/

/-- The code path actually treating a request as a notification:
    notifications/initialized, or a nil id combined with a method
    outside the three answering handlers. -/
theorem dispatch_nil_id (mux : MCPServeMux) (req : MCPRequest)
    (hid : req.id = none) (h1 : req.method ≠ "initialize")
    (h2 : req.method ≠ "tools/list") (h3 : req.method ≠ "tools/call") :
    dispatch mux req = HTTPOut.noContent := by
  unfold dispatch
  split <;> simp_all

/-- Every dispatch outcome is no-content, a sendSuccess, or a
    sendError. -/
theorem dispatch_shape (mux : MCPServeMux) (req : MCPRequest) :
    dispatch mux req = HTTPOut.noContent ∨
    (∃ id res, dispatch mux req = sendSuccess id res) ∨
    (∃ id c msg, dispatch mux req = sendError id c msg) := by
  unfold dispatch handleInit handleListTools handleCallTool
  dsimp only
  repeat' split
  all_goals first
    | (left; rfl)
    | (right; left; exact ⟨req.id, _, rfl⟩)
    | (right; right; exact ⟨req.id, _, _, rfl⟩)

/-- Every ServeHTTP outcome is no-content, a sendSuccess, or a
    sendError. -/
theorem serveHTTP_shape (mux : MCPServeMux) (hm : String) (body : Except String MCPRequest) :
    ServeHTTP mux hm body = HTTPOut.noContent ∨
    (∃ id res, ServeHTTP mux hm body = sendSuccess id res) ∨
    (∃ id c msg, ServeHTTP mux hm body = sendError id c msg) := by
  unfold ServeHTTP
  split
  · left; rfl
  · split
    · right; right; exact ⟨none, _, _, rfl⟩
    · cases body with
      | error e => right; right; exact ⟨none, _, _, rfl⟩
      | ok req => exact dispatch_shape mux req

/-- The unmarshal model succeeds exactly when every supplied key is a
    declared field whose value is coercible to its kind. -/
theorem unmarshal_ok_iff (shape : List (String × FieldKind)) (args : List (String × JValue)) :
    protojsonUnmarshalFields false shape args = Except.ok () ↔
    ∀ kv ∈ args, ∃ kind, lookupKey shape kv.1 = some kind ∧ coercible kind kv.2 = true := by
  induction args with
  | nil => simp [protojsonUnmarshalFields]
  | cons kv rest ih =>
    obtain ⟨k, v⟩ := kv
    simp only [protojsonUnmarshalFields]
    cases hk : lookupKey shape k with
    | none => simp [hk]
    | some kind =>
      by_cases hco : coercible kind v = true
      · simp [hk, hco, ih]
      · simp [hk, hco]

/- Claim theorems. -/

/-- Claim C1, counterexample: the claim says a request with an absent
    id produces no response body regardless of method, including for
    initialize; but dispatching an id-less initialize produces a full
    success response body, not the no-content signal. -/
theorem c1_absent_id_still_answered :
    dispatch mux0 { jsonrpc := "2.0", id := none, method := "initialize", params := [] } =
      sendSuccess none (initResult mux0.metadata)
    ∧ dispatch mux0 { jsonrpc := "2.0", id := none, method := "initialize", params := [] } ≠
      HTTPOut.noContent := by
  refine ⟨rfl, fun h => ?_⟩
  rw [show dispatch mux0 { jsonrpc := "2.0", id := none, method := "initialize", params := [] } =
      sendSuccess none (initResult mux0.metadata) from rfl] at h
  exact HTTPOut.noConfusion h

/-- Claim C1, amended: a request whose id is absent produces no
    response body only when its method is notifications/initialized or
    unrecognized; the recognized methods initialize, tools/list and
    tools/call are answered even without an id. -/
theorem c1_amended_notification_no_body (mux : MCPServeMux) (req : MCPRequest)
    (hid : req.id = none) (h1 : req.method ≠ "initialize")
    (h2 : req.method ≠ "tools/list") (h3 : req.method ≠ "tools/call") :
    dispatch mux req = HTTPOut.noContent := by
  unfold dispatch
  split <;> simp_all

/-- Witness for the amended C1 theorem at a concrete id-less
    notification. -/
theorem c1_amended_notification_no_body_witness :
    ({ jsonrpc := "2.0", id := none, method := "notifications/initialized", params := [] } : MCPRequest).id = none
    ∧ dispatch mux0 { jsonrpc := "2.0", id := none, method := "notifications/initialized", params := [] } =
      HTTPOut.noContent := by
  refine ⟨rfl, c1_amended_notification_no_body mux0 _ rfl ?_ ?_ ?_⟩ <;> decide

/-- Claim C2, counterexample: the claim says unknown keys are dropped
    and decoding still succeeds; but with DiscardUnknown set to false
    a single unknown key makes DecodeArgs fail. -/
theorem c2_unknown_key_rejected :
    DecodeArgs (some [("extra", .jstr "x")]) (some [("name", .kString)]) =
      Except.error "unknown field extra" := rfl

/-- Claim C2, amended: DecodeArgs treats an absent mapping as empty,
    and succeeds exactly when every present key matches a declared
    field and its value is coercible to that field's kind — so it
    fails both on a non-coercible value and on any unknown key
    (unknown keys are rejected, not dropped). -/
theorem c2_amended_decode_args (shape : List (String × FieldKind)) (args : List (String × JValue)) :
    DecodeArgs none (some shape) = Except.ok ()
    ∧ (DecodeArgs (some args) (some shape) = Except.ok () ↔
        ∀ kv ∈ args, ∃ kind, lookupKey shape kv.1 = some kind ∧ coercible kind kv.2 = true) :=
  ⟨rfl, unmarshal_ok_iff shape args⟩

/-- Claim C8: initialize always succeeds with the protocol version,
    the configured server name and version, and a tools capability
    advertisement; and the response is identical for any two registry
    states sharing the same metadata (the handler never consults the
    registry). -/
theorem c8_init_ignores_registry (tools1 tools2 : List (String × ToolHandler))
    (m : ServerMetadata) (jr : String) (id : Option JValue) (params : List (String × JValue)) :
    dispatch ⟨tools1, m⟩ ⟨jr, id, "initialize", params⟩ = sendSuccess id (initResult m)
    ∧ dispatch ⟨tools1, m⟩ ⟨jr, id, "initialize", params⟩ =
      dispatch ⟨tools2, m⟩ ⟨jr, id, "initialize", params⟩ :=
  ⟨rfl, rfl⟩

/-- Claim C9: before any JSON-RPC processing, an OPTIONS request gets
    the no-content signal, and any method other than OPTIONS and POST
    gets a JSON-RPC error with code -32600 and a null id, with a
    result independent of the request body (the body is never
    parsed). -/
theorem c9_preparse_http_gate (mux : MCPServeMux) (hm : String)
    (b1 b2 : Except String MCPRequest) (hpost : hm ≠ "POST") :
    ServeHTTP mux "OPTIONS" b1 = HTTPOut.noContent
    ∧ (hm ≠ "OPTIONS" →
        ServeHTTP mux hm b1 = HTTPOut.response 400
          { jsonrpc := "2.0", id := none, result := none,
            error := some { code := -32600, message := "Invalid request method" } }
        ∧ ServeHTTP mux hm b1 = ServeHTTP mux hm b2) := by
  refine ⟨rfl, fun hopt => ⟨?_, ?_⟩⟩
  · unfold ServeHTTP
    simp [hopt, hpost, sendError, statusForCode]
  · unfold ServeHTTP
    simp [hopt, hpost]

/-- Witness for C9 at the GET method with two different bodies. -/
theorem c9_preparse_http_gate_witness :
    ServeHTTP mux0 "OPTIONS" (Except.error "junk") = HTTPOut.noContent
    ∧ ServeHTTP mux0 "GET" (Except.error "junk") = HTTPOut.response 400
        { jsonrpc := "2.0", id := none, result := none,
          error := some { code := -32600, message := "Invalid request method" } }
    ∧ ServeHTTP mux0 "GET" (Except.error "junk") =
      ServeHTTP mux0 "GET" (Except.ok { jsonrpc := "2.0", id := none, method := "x", params := [] }) := by
  have h := c9_preparse_http_gate mux0 "GET" (Except.error "junk")
    (Except.ok { jsonrpc := "2.0", id := none, method := "x", params := [] }) (by decide)
  have h2 := h.2 (by decide)
  exact ⟨h.1, h2.1, h2.2⟩

/-- sendError's status is 400 exactly for parse error, invalid
    request, and the not-found code. -/
theorem statusForCode_eq_400_iff (c : Int) :
    statusForCode c = 400 ↔ (c = -32700 ∨ c = -32600 ∨ c = -32601) := by
  unfold statusForCode
  split_ifs with hA hB
  · exact ⟨fun _ => Or.inr hA, fun _ => rfl⟩
  · exact ⟨fun _ => Or.inl hB, fun _ => rfl⟩
  · constructor
    · intro h
      omega
    · rintro (h | h | h)
      · exact absurd h hB
      · exact absurd (Or.inl h) hA
      · exact absurd (Or.inr h) hA

/-- sendError's status is always 400 or 200. -/
theorem statusForCode_or (c : Int) : statusForCode c = 400 ∨ statusForCode c = 200 := by
  unfold statusForCode
  split_ifs <;> simp

/-- Claim C5, counterexample: the claim says the in-band -32601
    tool-not-found error is carried with status 200; but sendError
    chooses the status from the code alone, so tools/call for a
    missing tool is carried with status 400. -/
theorem c5_tool_not_found_is_400 :
    dispatch mux0
        { jsonrpc := "2.0", id := some (.jnum 1), method := "tools/call",
          params := [("name", .jstr "missing")] } =
      HTTPOut.response 400
        { jsonrpc := "2.0", id := some (.jnum 1), result := none,
          error := some { code := -32601, message := "Tool not found: missing" } }
    ∧ (400 : Nat) ≠ 200 :=
  ⟨rfl, by decide⟩

/-- Claim C5, amended: every HTTP-carried response has status 400 or
    200, with 400 exactly when the body carries a JSON-RPC error coded
    -32700, -32600 or -32601 — parse and routing failures, but also
    the in-band tools/call tool-not-found, which shares code -32601;
    -32602 and -32000 errors and successes are carried with 200; a
    request the code treats as a notification yields the no-content
    (204, empty body) signal. -/
theorem c5_amended_status_mapping (mux : MCPServeMux) (hm : String) (body : Except String MCPRequest) :
    (∀ s b, ServeHTTP mux hm body = HTTPOut.response s b →
        ((s = 400 ∨ s = 200) ∧
         (s = 400 ↔ ∃ e, b.error = some e ∧ (e.code = -32700 ∨ e.code = -32600 ∨ e.code = -32601))))
    ∧ (∀ req, body = Except.ok req → hm = "POST" → req.id = none →
        req.method ≠ "initialize" → req.method ≠ "tools/list" → req.method ≠ "tools/call" →
        ServeHTTP mux hm body = HTTPOut.noContent) := by
  constructor
  · intro s b heq
    rcases serveHTTP_shape mux hm body with h | ⟨id, res, h⟩ | ⟨id, c, msg, h⟩
    · rw [heq] at h
      exact HTTPOut.noConfusion h
    · rw [heq] at h
      simp only [sendSuccess] at h
      injection h with hs hb
      subst hs
      subst hb
      simp
    · rw [heq] at h
      simp only [sendError] at h
      injection h with hs hb
      subst hs
      subst hb
      refine ⟨statusForCode_or c, ?_⟩
      rw [statusForCode_eq_400_iff c]
      constructor
      · intro hc
        exact ⟨⟨c, msg⟩, rfl, hc⟩
      · rintro ⟨e, he, hc⟩
        injection he with he
        subst he
        exact hc
  · intro req hbody hpost hid hm1 hm2 hm3
    subst hbody
    subst hpost
    have hred : ServeHTTP mux "POST" (Except.ok req) = dispatch mux req := rfl
    rw [hred]
    exact dispatch_nil_id mux req hid hm1 hm2 hm3

/-- Witness for C5: the tool-not-found response carried with 400, and
    a concrete unrecognized id-less request carried as no-content. -/
theorem c5_amended_status_mapping_witness :
    (((400 : Nat) = 400 ∨ (400 : Nat) = 200)
      ∧ ((400 : Nat) = 400 ↔ ∃ e,
          (some (MCPError.mk (-32601) "Tool not found: missing") : Option MCPError) = some e
          ∧ (e.code = -32700 ∨ e.code = -32600 ∨ e.code = -32601)))
    ∧ ServeHTTP mux0 "POST"
        (Except.ok { jsonrpc := "2.0", id := none, method := "nope", params := [] }) =
      HTTPOut.noContent := by
  constructor
  · exact (c5_amended_status_mapping mux0 "POST"
      (Except.ok { jsonrpc := "2.0", id := some (.jnum 1), method := "tools/call",
                   params := [("name", .jstr "missing")] })).1
      400
      { jsonrpc := "2.0", id := some (.jnum 1), result := none,
        error := some { code := -32601, message := "Tool not found: missing" } }
      rfl
  · exact (c5_amended_status_mapping mux0 "POST"
      (Except.ok { jsonrpc := "2.0", id := none, method := "nope", params := [] })).2
      _ rfl rfl rfl (by decide) (by decide) (by decide)

/-- Claim C7: each tools/list entry carries exactly the registered
    name and description; the registered title appears exactly when
    non-empty; each hint key appears in the annotations object exactly
    when the corresponding registered flag is true; and the
    annotations object is present exactly when at least one of the
    three flags is true (omitted when all are false). -/
theorem c7_list_metadata_exact (mux : MCPServeMux) (id : Option JValue)
    (key : String) (tool : ToolHandler) (hmem : (key, tool) ∈ mux.tools) :
    handleListTools mux id = sendSuccess id
      (.jobj [("tools", .jarr (mux.tools.map (fun p => JValue.jobj (toolEntry p.2))))])
    ∧ JValue.jobj (toolEntry tool) ∈ mux.tools.map (fun p => JValue.jobj (toolEntry p.2))
    ∧ lookupKey (toolEntry tool) "name" = some (.jstr tool.Name)
    ∧ lookupKey (toolEntry tool) "description" = some (.jstr tool.Description)
    ∧ lookupKey (toolEntry tool) "title" =
        (if tool.Title = "" then none else some (.jstr tool.Title))
    ∧ lookupKey (toolEntry tool) "annotations" =
        (if tool.ReadOnly ∨ tool.Idempotent ∨ tool.Destructive
         then some (.jobj (toolHints tool)) else none)
    ∧ lookupKey (toolHints tool) "readOnlyHint" =
        (if tool.ReadOnly then some (.jbool true) else none)
    ∧ lookupKey (toolHints tool) "idempotentHint" =
        (if tool.Idempotent then some (.jbool true) else none)
    ∧ lookupKey (toolHints tool) "destructiveHint" =
        (if tool.Destructive then some (.jbool true) else none) := by
  refine ⟨rfl, List.mem_map_of_mem _ hmem, ?_, ?_, ?_, ?_, ?_, ?_, ?_⟩ <;>
    by_cases ht : tool.Title = "" <;>
    cases hr : tool.ReadOnly <;> cases hi : tool.Idempotent <;> cases hd : tool.Destructive <;>
    simp [toolEntry, toolHints, lookupKey, ht, hr, hi, hd]

/-- Witness for C7 at the one-tool registry. -/
theorem c7_list_metadata_exact_witness :
    lookupKey (toolEntry tool1) "name" = some (.jstr "greet")
    ∧ lookupKey (toolEntry tool1) "title" = none
    ∧ lookupKey (toolEntry tool1) "annotations" = some (.jobj (toolHints tool1))
    ∧ lookupKey (toolHints tool1) "readOnlyHint" = some (.jbool true)
    ∧ lookupKey (toolHints tool1) "idempotentHint" = none := by
  have h := c7_list_metadata_exact mux1 none "greet" tool1 (by simp [mux1])
  exact ⟨h.2.2.1, h.2.2.2.2.1, h.2.2.2.2.2.1, h.2.2.2.2.2.2.1, h.2.2.2.2.2.2.2.1⟩

/-- Claim C10: when the bound invoker succeeds, the result object has
    exactly the two keys content and structuredContent; content is a
    one-element list holding a text item whose text is the v-verb
    formatting of the output, and structuredContent is the output
    unchanged. -/
theorem c10_call_success_shape (mux : MCPServeMux) (id : Option JValue)
    (params : List (String × JValue)) (toolName : String) (tool : ToolHandler) (output : JValue)
    (hname : lookupKey params "name" = some (.jstr toolName))
    (htool : findTool mux.tools toolName = some tool)
    (hout : tool.Handler (argumentsOf params) = Except.ok output) :
    ∃ fields : List (String × JValue),
      handleCallTool mux id params = sendSuccess id (.jobj fields)
      ∧ fields.map Prod.fst = ["content", "structuredContent"]
      ∧ lookupKey fields "content" =
          some (.jarr [.jobj [("type", .jstr "text"), ("text", .jstr (sprintfV output))]])
      ∧ lookupKey fields "structuredContent" = some output := by
  refine ⟨[("content", .jarr [.jobj [("type", .jstr "text"), ("text", .jstr (sprintfV output))]]),
           ("structuredContent", output)], ?_, rfl, rfl, rfl⟩
  unfold handleCallTool
  rw [hname]
  dsimp only
  rw [htool]
  dsimp only
  rw [hout]
  rfl

/-- Witness for C10 on the one-tool registry. -/
theorem c10_call_success_shape_witness :
    ∃ fields : List (String × JValue),
      handleCallTool mux1 (some (.jnum 7)) [("name", .jstr "greet")] =
        sendSuccess (some (.jnum 7)) (.jobj fields)
      ∧ fields.map Prod.fst = ["content", "structuredContent"]
      ∧ lookupKey fields "content" =
          some (.jarr [.jobj [("type", .jstr "text"), ("text", .jstr (sprintfV (.jstr "hi")))]])
      ∧ lookupKey fields "structuredContent" = some (.jstr "hi") :=
  c10_call_success_shape mux1 (some (.jnum 7)) [("name", .jstr "greet")] "greet" tool1
    (.jstr "hi") rfl rfl rfl

/-- Claim C3, counterexample: the claim says a field whose wire type
    is unexpected for its number is consumed generically and the walk
    continues; but on field 1 encoded as a varint (expected: bytes)
    followed by a well-formed field 2, parseServiceOptions aborts with
    the zero record and false — the second conjunct shows the
    remainder alone decodes fine, so the walk did not continue. -/
theorem c3_known_number_wrong_type_aborts :
    parseServiceOptions [8, 0, 18, 1, 118] = (zeroService, false)
    ∧ parseServiceOptions [18, 1, 118] = ({ Name := [], Version := [118] }, true) :=
  ⟨rfl, rfl⟩

/-- Claim C3, amended: findExtension consumes any leading field other
    than the target length-delimited field generically (including the
    target number under a non-bytes wire type) and continues; the
    option sub-decoders consume generically and continue only for
    unrecognized field numbers — a recognized number with an
    unexpected wire type aborts their walk instead. -/
theorem c3_amended_generic_skip (raw : List Nat) (num typ n m : Nat)
    (ht : consumeTag raw = some (num, typ, n))
    (hcf : consumeField typ (raw.drop n) = some m) :
    (∀ fn, ¬(num = fn ∧ typ = wtBytes) →
        findExtension raw fn = findExtension ((raw.drop n).drop m) fn)
    ∧ (num ≠ 1 → num ≠ 2 →
        parseServiceOptions raw = parseServiceOptions ((raw.drop n).drop m))
    ∧ (num ≠ 1 → num ≠ 2 → num ≠ 3 → num ≠ 4 → num ≠ 5 → num ≠ 6 →
        parseToolOptions raw = parseToolOptions ((raw.drop n).drop m)) := by
  have hn : 1 ≤ n := consumeTag_pos _ _ _ _ ht
  cases raw with
  | nil => exact absurd rfl (consumeTag_ne_nil _ _ ht)
  | cons b tl =>
    have hlen : (((b :: tl).drop n).drop m).length ≤ tl.length := by
      simp [List.length_drop]
      omega
    refine ⟨fun fn hne => ?_, fun hn1 hn2 => ?_, fun hn1 hn2 hn3 hn4 hn5 hn6 => ?_⟩
    · unfold findExtension
      rw [List.length_cons, findExtensionF_succ_skip tl.length (b :: tl) fn num typ n m ht hne hcf]
      exact findExtensionF_fuel tl.length _ _ fn hlen le_rfl
    · unfold parseServiceOptions
      rw [List.length_cons,
        parseServiceOptionsF_succ_skip tl.length zeroService (b :: tl) num typ n m ht hn1 hn2 hcf]
      exact parseServiceOptionsF_fuel tl.length _ zeroService _ hlen le_rfl
    · unfold parseToolOptions
      rw [List.length_cons,
        parseToolOptionsF_succ_skip tl.length zeroTool (b :: tl) num typ n m ht hn1 hn2 hn3 hn4 hn5 hn6 hcf]
      exact parseToolOptionsF_fuel tl.length _ zeroTool _ hlen le_rfl

/-- Witness for the amended C3 on a concrete unknown-number field
    (field 7, varint) followed by a declared field. -/
theorem c3_amended_generic_skip_witness :
    consumeTag [56, 0, 8, 1] = some (7, 0, 1)
    ∧ consumeField 0 (List.drop 1 [56, 0, 8, 1]) = some 1
    ∧ parseServiceOptions [56, 0, 8, 1] =
        parseServiceOptions (List.drop 1 (List.drop 1 [56, 0, 8, 1])) := by
  have h := c3_amended_generic_skip [56, 0, 8, 1] 7 0 1 1 rfl rfl
  exact ⟨rfl, rfl, h.2.1 (by decide) (by decide)⟩

/-- Claim C4, counterexample: the claim says a malformed buffer never
    yields found=true with partially-populated options; but on method
    option bytes whose located tool submessage is the sequence name
    "A" then the malformed byte 128 (an unfinishable tag — second
    conjunct), the decode reports found=true with only Name set. -/
theorem c4_partial_tool_options_found :
    parseMethodOptions [10, 4, 10, 1, 65, 128] =
      ({ Name := [65], Title := [], Description := [],
         ReadOnly := false, Idempotent := false, Destructive := false }, true)
    ∧ consumeTag [128] = none :=
  ⟨rfl, rfl⟩

/-- Claim C4, amended: a decode failure before the tool submessage is
    located — in the service-option walk or the outer method-option
    walk — degrades to exactly the zero-valued record with
    found=false; but a malformed tool submessage does not clear found:
    parseMethodOptions then reports found=true with the fields decoded
    before the malformed point, as the counterexample shows. -/
theorem c4_amended_absent_is_zero (raw : List Nat) :
    ((parseServiceOptions raw).2 = false → parseServiceOptions raw = (zeroService, false))
    ∧ ((parseMethodOptions raw).2 = false → parseMethodOptions raw = (zeroTool, false)) := by
  constructor
  · intro h
    unfold parseServiceOptions at h ⊢
    rcases parseServiceOptionsF_false_zero raw.length zeroService raw with h2 | h2
    · rw [h] at h2
      exact Bool.noConfusion h2
    · exact h2
  · intro h
    unfold parseMethodOptions at h ⊢
    rcases parseMethodOptionsF_false_zero raw.length raw with h2 | h2
    · rw [h] at h2
      exact Bool.noConfusion h2
    · exact h2

/-- Witness for the amended C4 at the malformed one-byte buffer. -/
theorem c4_amended_absent_is_zero_witness :
    (parseServiceOptions [128]).2 = false
    ∧ parseServiceOptions [128] = (zeroService, false)
    ∧ (parseMethodOptions [128]).2 = false
    ∧ parseMethodOptions [128] = (zeroTool, false) := by
  have h := c4_amended_absent_is_zero [128]
  exact ⟨rfl, h.1 rfl, rfl, h.2 rfl⟩

/-- Claim C6: the extension lookup is a total function into an Option
    (no error or panic case exists), and for every buffer in which the
    wire-format walk cannot reach a length-delimited field at the
    target number — including arbitrarily malformed garbage, which
    satisfies the premise vacuously — it returns the absent result. -/
theorem c6_absent_on_missing_target (fn : Nat) (bs : List Nat)
    (h : ¬ HasTargetField fn bs) : findExtension bs fn = none :=
  findExtensionF_none_of_not_has fn bs.length bs le_rfl h

/-- Witness for C6 at a garbage buffer (a lone continuation byte that
    no tag parse can accept). -/
theorem c6_absent_on_missing_target_witness :
    ¬ HasTargetField methodOptionFieldNumber [255]
    ∧ findExtension [255] methodOptionFieldNumber = none := by
  have hno : ¬ HasTargetField methodOptionFieldNumber [255] := by
    intro h
    cases h with
    | here ht h1 h2 hb =>
      rw [show consumeTag [255] = none from rfl] at ht
      exact Option.noConfusion ht
    | skip ht hne hcf hrest =>
      rw [show consumeTag [255] = none from rfl] at ht
      exact Option.noConfusion ht
  exact ⟨hno, c6_absent_on_missing_target methodOptionFieldNumber [255] hno⟩

end GrpcMcpGateway
